import Mathlib

/-
Shallow embedding of the tip-detection and fan-out pipeline of the
solana-tip-overlay SDK, together with theorems settling the specification
claims about it.

Embedded components (each definition is translated from the named source):
  * transaction-parser.js : parseTipTransaction, extractMemo
  * crypto.js             : verifySignature (over abstract byte primitives)
  * TipIndexer.js         : the per-signature processing loop of
                            checkStreamerTips / processTransaction, and the
                            on/emit handler machinery
  * WebSocketBroadcaster.js : shouldBroadcast, broadcastTip, handleMessage

The external ledger RPC (getSignaturesForAddress with its limit/until
filter) is not part of the repository; it is modelled from the spec where
multi-cycle polling behaviour is analysed.
-/

namespace SolanaTip

/-- A single compiled instruction of a transaction message
(transaction-parser.js).  `programIdIndex` indexes into the account keys;
`data` is the raw base58 payload string when present (`ix.data` in the
source; `none` models a missing data field, and JavaScript treats the
empty string as falsy exactly like a missing one). -/
structure Instruction where
  programIdIndex : Nat
  data : Option String
deriving Repr, DecidableEq

/-- The message part of a fetched transaction: the account key list and
the instruction list (transaction-parser.js reads
`transaction.transaction.message`). -/
structure TxMessage where
  accountKeys : List String
  instructions : List Instruction
deriving Repr, DecidableEq

/-- The meta part of a fetched transaction: pre/post balances in lamports,
one entry per account key.  Balances are modelled as integers (JavaScript
numbers are exact on this range for real ledger data). -/
structure TxMeta where
  preBalances : List Int
  postBalances : List Int
deriving Repr, DecidableEq

/-- A transaction as returned by `getTransaction`: `meta` may be null in
the source, hence an option. -/
structure SolTransaction where
  meta : Option TxMeta
  message : TxMessage
  slot : Nat
  blockTime : Option Int
deriving Repr, DecidableEq

/-- The record returned by `parseTipTransaction` (transaction-parser.js).
`amountSol` (a display-only float derived as `amountLamports / 1e9`) is
omitted: the source never compares it and floats have no role in any
claim. -/
structure TipInfo where
  fromAddr : String
  amountLamports : Int
  slot : Nat
  blockTime : Option Int
deriving Repr, DecidableEq

/-- The sender-search loop of `parseTipTransaction` (transaction-parser.js
lines 74-81): the first index `i < n` with
`meta.preBalances[i] > meta.postBalances[i] && i !== targetIndex`. -/
def senderIdx (preBalances postBalances : List Int) (targetIndex n : Nat) : Option Nat :=
  (List.range n).find? fun i =>
    decide (postBalances.getD i 0 < preBalances.getD i 0) && (i != targetIndex)

/-- `parseTipTransaction(transaction, targetPubkey)` from
transaction-parser.js.  Balance lookups use `getD _ 0`; the RPC shape
guarantees one balance entry per account key, and the claims about
in-range behaviour state the range bounds explicitly. -/
def parseTipTransaction (transaction : SolTransaction) (targetPubkey : String) :
    Option TipInfo :=
  match transaction.meta with
  | none => none
  | some meta =>
    let accountKeys := transaction.message.accountKeys
    match accountKeys.findIdx? (· == targetPubkey) with
    | none => none
    | some targetIndex =>
      let preBalance := meta.preBalances.getD targetIndex 0
      let postBalance := meta.postBalances.getD targetIndex 0
      let balanceChange := postBalance - preBalance
      if balanceChange ≤ 0 then none
      else
        let fromAddr :=
          match senderIdx meta.preBalances meta.postBalances targetIndex
              accountKeys.length with
          | some i => accountKeys.getD i "unknown"
          | none => "unknown"
        some ⟨fromAddr, balanceChange, transaction.slot, transaction.blockTime⟩

/-- The well-known memo program identifier (transaction-parser.js). -/
def MEMO_PROGRAM_ID : String := "MemoSq4gqABAXKb96qnH8TysNcWxMyWCqXgDLGmfcHr"

/-- The instruction-scanning loop of `extractMemo` (transaction-parser.js
lines 105-115).  `decodeMemo` abstracts `Buffer.from(bs58.decode(d))
.toString()`: `none` models the decode throwing, which the source catches
and then continues with the next instruction.  Program-id lookup uses
`getD _ ""` (real transactions always have the index in range). -/
def extractMemoGo (decodeMemo : String → Option String) (accountKeys : List String) :
    List Instruction → Option String
  | [] => none
  | ix :: rest =>
    let programId := accountKeys.getD ix.programIdIndex ""
    let dataStr := ix.data.getD ""
    if programId == MEMO_PROGRAM_ID && dataStr != "" then
      match decodeMemo dataStr with
      | some text => some text
      | none => extractMemoGo decodeMemo accountKeys rest
    else
      extractMemoGo decodeMemo accountKeys rest

/-- `extractMemo(transaction)` from transaction-parser.js: scan the
instruction list for one addressed to the memo program and decode its
payload; a decode failure is caught and scanning continues. -/
def extractMemo (decodeMemo : String → Option String)
    (transaction : SolTransaction) : Option String :=
  extractMemoGo decodeMemo transaction.message.accountKeys
    transaction.message.instructions

/-- The event payload built by `processTransaction` (TipIndexer.js lines
142-152).  `amountSol` is omitted for the same reason as in `TipInfo`. -/
structure TipData where
  streamerId : String
  streamerPubkey : String
  fromAddr : String
  amountLamports : Int
  txHash : String
  slot : Nat
  blockTime : Option Int
  memo : Option String
deriving Repr, DecidableEq

/-- `processTransaction(streamerId, streamerPubkey, signature)` from
TipIndexer.js lines 124-163.  `getTransaction` abstracts the RPC call:
`none` models both an RPC error (the outer catch logs and returns) and a
null transaction; both paths return without emitting.  The result is the
emitted tip event, if any.  `memo || undefined` maps an empty decoded
memo to `none`. -/
def processTransaction (decodeMemo : String → Option String)
    (getTransaction : String → Option SolTransaction)
    (streamerId streamerPubkey signature : String) : Option TipData :=
  match getTransaction signature with
  | none => none
  | some tx =>
    match tx.meta with
    | none => none
    | some _ =>
      match parseTipTransaction tx streamerPubkey with
      | none => none
      | some tipInfo =>
        let memo := extractMemo decodeMemo tx
        some { streamerId := streamerId, streamerPubkey := streamerPubkey,
               fromAddr := tipInfo.fromAddr,
               amountLamports := tipInfo.amountLamports,
               txHash := signature, slot := tipInfo.slot,
               blockTime := tipInfo.blockTime,
               memo := match memo with
                       | some m => if m = "" then none else some m
                       | none => none }

/-- The per-signature loop of `checkStreamerTips` (TipIndexer.js lines
104-114).  `lastSeen` is the value read from storage before the loop (a
`const` in the source: every iteration compares against it), `cursor` is
the stored `lastSeen` value as mutated by `updateLastSeen`.  The first
component collects, in processing order, each processed signature paired
with the event it emitted (if any); the second is the final stored
cursor. -/
def processPage (decodeMemo : String → Option String)
    (getTransaction : String → Option SolTransaction)
    (streamerId pubkey : String) (lastSeen cursor : Option String) :
    List String → List (String × Option TipData) × Option String
  | [] => ([], cursor)
  | signature :: rest =>
    if lastSeen = some signature then
      processPage decodeMemo getTransaction streamerId pubkey lastSeen cursor rest
    else
      let result := processTransaction decodeMemo getTransaction streamerId pubkey
        signature
      let r := processPage decodeMemo getTransaction streamerId pubkey lastSeen
        (some signature) rest
      ((signature, result) :: r.1, r.2)

/-- Modelled from the spec: the ledger-side until filter of
`listRecentSignatures(address, {limit, untilSignature})` (spec section 6
and section 4.4 step b).  `chain` is the address's full transaction
history in chronological (oldest-first) order; the result is the part
strictly after the `until` signature (the whole history when no bound is
given). -/
def sigsAfter (chain : List String) : Option String → List String
  | none => chain
  | some u => (chain.dropWhile (· != u)).drop 1

/-- Modelled from the spec: `listRecentSignatures` returns a newest-first
page of at most `limit` signatures, bounded below by the `until`
signature when one is supplied (spec section 6; the repository's ledger
client is the external @solana/web3.js RPC, not part of src/). -/
def listRecentSignatures (chain : List String) (limit : Nat)
    (untilSig : Option String) : List String :=
  ((sigsAfter chain untilSig).reverse).take limit

/-- `checkStreamerTips` (TipIndexer.js lines 81-119) for one recipient:
read the cursor, fetch a page bounded by it, reverse to oldest-first
order and run the per-signature loop.  Returns the processing log and the
final stored cursor. -/
def checkStreamerTips (decodeMemo : String → Option String)
    (getTransaction : String → Option SolTransaction)
    (chain : List String) (limit : Nat) (streamerId pubkey : String)
    (lastSeen : Option String) :
    List (String × Option TipData) × Option String :=
  let signatures := listRecentSignatures chain limit lastSeen
  let newSignatures := signatures.reverse
  processPage decodeMemo getTransaction streamerId pubkey lastSeen lastSeen
    newSignatures

/-- State of the indexer for one recipient address across poll cycles:
the ledger history so far, the stored cursor (`lastSeen` in storage), and
the accumulated processing log (each processed signature with the event
it emitted, if any). -/
structure IndexerState where
  chain : List String
  lastSeen : Option String
  log : List (String × Option TipData)

/-- Before the first cycle: empty history, no cursor, nothing emitted. -/
def initialIndexerState : IndexerState := ⟨[], none, []⟩

/-- One poll cycle's environment for the recipient: the transactions that
reached the ledger since the previous cycle, and whether the signature
fetch succeeded (`checkStreamerTips` catches a failed
`getSignaturesForAddress` and leaves the cursor unchanged). -/
structure CycleInput where
  newTxs : List String
  rpcOk : Bool

/-- One poll cycle for the recipient: the chain grows by the new
transactions, then `checkStreamerTips` runs (unless the signature fetch
failed, in which case state is unchanged). -/
def stepCycle (decodeMemo : String → Option String)
    (getTransaction : String → Option SolTransaction)
    (limit : Nat) (streamerId pubkey : String)
    (s : IndexerState) (c : CycleInput) : IndexerState :=
  let chain := s.chain ++ c.newTxs
  if c.rpcOk then
    let r := checkStreamerTips decodeMemo getTransaction chain limit streamerId
      pubkey s.lastSeen
    ⟨chain, r.2, s.log ++ r.1⟩
  else
    ⟨chain, s.lastSeen, s.log⟩

/-- Any number of poll cycles from a fresh state. -/
def runIndexer (decodeMemo : String → Option String)
    (getTransaction : String → Option SolTransaction)
    (limit : Nat) (streamerId pubkey : String)
    (cycles : List CycleInput) : IndexerState :=
  cycles.foldl (stepCycle decodeMemo getTransaction limit streamerId pubkey)
    initialIndexerState

/-- The signatures of the events actually emitted as `tip` events, in
emission order. -/
def emittedSigs (s : IndexerState) : List String :=
  (s.log.filter fun p => p.2.isSome).map Prod.fst

/-- `shouldBroadcast(streamerId)` from WebSocketBroadcaster.js lines
131-151.  The per-streamer timestamp table `this.alertCounts` is modelled
as a total function defaulting to `[]` (the source lazily initialises
missing keys to `[]`, which is extensionally the same).  Returns the
decision and the updated table; on the limit-exceeded path the source
leaves the stored (unpruned) list in place, which the model mirrors by
returning the table unchanged. -/
def shouldBroadcast (maxAlertsPerWindow : Nat) (alertWindowMs : Int)
    (alertCounts : String → List Int) (now : Int) (streamerId : String) :
    Bool × (String → List Int) :=
  let counts := alertCounts streamerId
  let filtered := counts.filter fun entry => decide (now - entry < alertWindowMs)
  if maxAlertsPerWindow ≤ filtered.length then
    (false, alertCounts)
  else
    (true, fun id => if id = streamerId then filtered ++ [now] else alertCounts id)

/-- A connected WebSocket client as `broadcastTip` sees it: an identity
and the transport ready state (1 = OPEN). -/
structure WsClient where
  id : Nat
  readyState : Nat
deriving Repr, DecidableEq

/-- `broadcastTip(streamerId, tipData)` from WebSocketBroadcaster.js lines
99-126.  `subscriptions` maps a client id to its subscription set
(`this.subscriptions`, absent for clients that never subscribed).  The
first component is `some sentClients` when the event was delivered (the
clients the serialized message was sent to, in iteration order) and
`none` when the rate limiter dropped it; no queueing happens in either
case.  The second component is the updated rate-limit table. -/
def broadcastTip (maxAlertsPerWindow : Nat) (alertWindowMs : Int)
    (clients : List WsClient) (subscriptions : Nat → Option (List String))
    (alertCounts : String → List Int) (now : Int) (streamerId : String) :
    Option (List WsClient) × (String → List Int) :=
  let r := shouldBroadcast maxAlertsPerWindow alertWindowMs alertCounts now streamerId
  if r.1 then
    (some (clients.filter fun ws =>
        match subscriptions ws.id with
        | some subs => decide (streamerId ∈ subs) && (ws.readyState == 1)
        | none => false),
     r.2)
  else
    (none, r.2)

/-- An inbound WebSocket control message as `handleMessage` reads it:
each field is absent or a string (JavaScript truthiness on these fields
treats the empty string like an absent one). -/
structure WsMessage where
  action : Option String
  msgType : Option String
  streamer : Option String
deriving Repr, DecidableEq

/-- A reply sent on the connection by `handleMessage`. -/
inductive WsReply where
  | subscribed (streamer : String)
  | pong
deriving Repr, DecidableEq

/-- `handleMessage(ws, msg)` from WebSocketBroadcaster.js lines 69-92,
restricted to the one connection's subscription set (the
`this.subscriptions` entry for `ws`): dispatch on `msg.action || msg.type`;
a subscribe with a truthy streamer adds it to the set (created on demand)
and replies `subscribed`; a subscribe without one does nothing; `ping`
replies `pong`; anything else is logged and ignored.  No branch closes
the connection and no branch consults the streamer registry. -/
def handleMessage (subs : Option (List String)) (msg : WsMessage) :
    Option (List String) × List WsReply :=
  let key := if msg.action.getD "" ≠ "" then msg.action.getD "" else msg.msgType.getD ""
  if key = "subscribe" then
    if msg.streamer.getD "" ≠ "" then
      let streamer := msg.streamer.getD ""
      let current := subs.getD []
      (some (if streamer ∈ current then current else current ++ [streamer]),
       [WsReply.subscribed streamer])
    else
      (subs, [])
  else if key = "ping" then
    (subs, [WsReply.pong])
  else
    (subs, [])

/-- The tweetnacl `nacl.sign.detached.verify` entry point (crypto.js line
21 calls it): tweetnacl first validates the scheme-fixed sizes
(signature 64 bytes, public key 32 bytes) and throws a TypeError on a
mismatch; only then does it run the actual curve computation, abstracted
here as `curveVerify`. -/
def signDetachedVerify (curveVerify : List Nat → List Nat → List Nat → Bool)
    (msg sig pk : List Nat) : Except String Bool :=
  if sig.length ≠ 64 then Except.error "bad signature size"
  else if pk.length ≠ 32 then Except.error "bad public key size"
  else Except.ok (curveVerify msg sig pk)

/-- `verifySignature(message, signatureBase58, pubkeyBase58)` from
crypto.js lines 15-26.  `encodeUtf8` abstracts `TextEncoder.encode`
(total, never throws); `bs58decode` abstracts `bs58.decode`, with `none`
modelling the throw on a non-base58 string.  Every throw anywhere in the
body is caught by the source's try/catch and turned into `false`. -/
def verifySignature (encodeUtf8 : String → List Nat)
    (bs58decode : String → Option (List Nat))
    (curveVerify : List Nat → List Nat → List Nat → Bool)
    (message signatureBase58 pubkeyBase58 : String) : Bool :=
  match bs58decode signatureBase58 with
  | none => false
  | some signatureBytes =>
    match bs58decode pubkeyBase58 with
    | none => false
    | some pubkeyBytes =>
      match signDetachedVerify curveVerify (encodeUtf8 message) signatureBytes
          pubkeyBytes with
      | Except.ok b => b
      | Except.error _ => false

/-- The handler-invocation loop of `emit` (TipIndexer.js lines 180-189):
each handler is called in turn with the event data; a handler is modelled
as returning `Except.error e` when it throws, and the loop catches the
error (logging it) and continues with the next handler.  The result is
the per-handler outcome trace, in invocation order; no error escapes. -/
def runHandlers {α ε : Type} (data : α) :
    List (α → Except ε Unit) → List (Except ε Unit)
  | [] => []
  | handler :: rest =>
    match handler data with
    | Except.ok u => Except.ok u :: runHandlers data rest
    | Except.error e => Except.error e :: runHandlers data rest

/-- `on(event, handler)` from TipIndexer.js lines 170-175: append the
handler to the event's list (`this.eventHandlers`, modelled as a total
function defaulting to `[]` exactly as the source lazily initialises
missing keys). -/
def onEvent {α ε : Type} (eventHandlers : String → List (α → Except ε Unit))
    (event : String) (handler : α → Except ε Unit) :
    String → List (α → Except ε Unit) :=
  fun e => if e = event then eventHandlers e ++ [handler] else eventHandlers e

/-- `emit(event, data)` from TipIndexer.js lines 180-189: run every
registered handler for the event (`this.eventHandlers.get(event) || []`)
on the data. -/
def emitEvent {α ε : Type} (eventHandlers : String → List (α → Except ε Unit))
    (event : String) (data : α) : List (Except ε Unit) :=
  runHandlers data (eventHandlers event)

/- ------------------------------------------------------------------ -/
/- Helper lemmas                                                       -/
/- ------------------------------------------------------------------ -/

lemma range_find?_eq_some {p : Nat → Bool} {j : Nat} :
    ∀ {n : Nat}, j < n → p j = true → (∀ k, k < j → p k = false) →
    (List.range n).find? p = some j := by
  induction j generalizing p with
  | zero =>
    intro n hj hp _
    cases n with
    | zero => omega
    | succ m =>
      rw [List.range_succ_eq_map]
      simp [List.find?, hp]
  | succ j ih =>
    intro n hj hp hmin
    cases n with
    | zero => omega
    | succ m =>
      rw [List.range_succ_eq_map]
      have h0 : p 0 = false := hmin 0 (Nat.succ_pos j)
      have hstep : List.find? p (0 :: List.map Nat.succ (List.range m)) =
          List.find? p (List.map Nat.succ (List.range m)) := by
        simp [List.find?, h0]
      rw [hstep, List.find?_map]
      have := ih (p := p ∘ Nat.succ) (n := m) (by omega) hp
        (fun k hk => hmin (k + 1) (by omega))
      rw [this]
      rfl

lemma range_find?_eq_none {p : Nat → Bool} {n : Nat}
    (h : ∀ k, k < n → p k = false) : (List.range n).find? p = none := by
  rw [List.find?_eq_none]
  intro x hx
  simp [h x (List.mem_range.mp hx)]

/- ------------------------------------------------------------------ -/
/- Claims about the transaction parser                                 -/
/- ------------------------------------------------------------------ -/

/-- C4: for a transaction whose account list contains the target address
at index `i` (with balances present for that index), `parseTipTransaction`
returns absent when the balance delta is nonpositive, and an event whose
`amountLamports` is exactly the delta when it is positive; when the
target is absent from the account list it returns absent. -/
theorem C4_parse_balance_delta :
    (∀ (tx : SolTransaction) (meta : TxMeta) (target : String) (i : Nat),
        tx.meta = some meta →
        tx.message.accountKeys.findIdx? (· == target) = some i →
        (meta.postBalances.getD i 0 - meta.preBalances.getD i 0 ≤ 0 →
          parseTipTransaction tx target = none) ∧
        (0 < meta.postBalances.getD i 0 - meta.preBalances.getD i 0 →
          ∃ info, parseTipTransaction tx target = some info ∧
            info.amountLamports =
              meta.postBalances.getD i 0 - meta.preBalances.getD i 0)) ∧
    (∀ (tx : SolTransaction) (target : String),
        target ∉ tx.message.accountKeys → parseTipTransaction tx target = none) := by
  constructor
  · intro tx meta target i hmeta hidx
    constructor
    · intro hle
      simp only [parseTipTransaction, hmeta, hidx, if_pos hle]
    · intro hpos
      have hne : ¬ (meta.postBalances.getD i 0 - meta.preBalances.getD i 0 ≤ 0) := by
        omega
      simp only [parseTipTransaction, hmeta, hidx, if_neg hne]
      exact ⟨_, rfl, rfl⟩
  · intro tx target hmem
    have hidx : tx.message.accountKeys.findIdx? (· == target) = none := by
      rw [List.findIdx?_eq_none_iff]
      intro x hx
      simp only [beq_eq_false_iff_ne]
      exact fun h => hmem (h ▸ hx)
    cases htx : tx.meta with
    | none => simp [parseTipTransaction, htx]
    | some m => simp [parseTipTransaction, htx, hidx]

/-- Witness for C4 at the spec's example: a 500000000-lamport increase to
the target yields an event with exactly that amount. -/
theorem C4_parse_balance_delta_witness :
    ∃ info, parseTipTransaction
        ⟨some ⟨[1000000000, 0], [499990000, 500000000]⟩,
         ⟨["sender", "target"], []⟩, 5, some 77⟩ "target" = some info ∧
      info.amountLamports = 500000000 := by
  have h := (C4_parse_balance_delta.1
    ⟨some ⟨[1000000000, 0], [499990000, 500000000]⟩,
     ⟨["sender", "target"], []⟩, 5, some 77⟩
    ⟨[1000000000, 0], [499990000, 500000000]⟩ "target" 1 rfl (by decide)).2
    (by decide)
  simpa using h

/-- C5: the reported sender is the account at the first index other than
the target's whose balance strictly decreased, and when no account
decreased, the sender is the literal "unknown" while the event is still
produced. -/
theorem C5_sender_first_decrease :
    (∀ (tx : SolTransaction) (meta : TxMeta) (target : String) (i j : Nat),
        tx.meta = some meta →
        tx.message.accountKeys.findIdx? (· == target) = some i →
        0 < meta.postBalances.getD i 0 - meta.preBalances.getD i 0 →
        j < tx.message.accountKeys.length →
        meta.postBalances.getD j 0 < meta.preBalances.getD j 0 →
        j ≠ i →
        (∀ k, k < j → k ≠ i →
          ¬ meta.postBalances.getD k 0 < meta.preBalances.getD k 0) →
        ∃ info, parseTipTransaction tx target = some info ∧
          info.fromAddr = tx.message.accountKeys.getD j "unknown") ∧
    (∀ (tx : SolTransaction) (meta : TxMeta) (target : String) (i : Nat),
        tx.meta = some meta →
        tx.message.accountKeys.findIdx? (· == target) = some i →
        0 < meta.postBalances.getD i 0 - meta.preBalances.getD i 0 →
        (∀ k, k < tx.message.accountKeys.length → k ≠ i →
          ¬ meta.postBalances.getD k 0 < meta.preBalances.getD k 0) →
        ∃ info, parseTipTransaction tx target = some info ∧
          info.fromAddr = "unknown") := by
  constructor
  · intro tx meta target i j hmeta hidx hpos hj hdec hji hmin
    have hfind : senderIdx meta.preBalances meta.postBalances i
        tx.message.accountKeys.length = some j := by
      apply range_find?_eq_some hj
      · simp only [Bool.and_eq_true, decide_eq_true_eq, bne_iff_ne, ne_eq]
        exact ⟨hdec, hji⟩
      · intro k hk
        by_cases hki : k = i
        · simp [hki]
        · simp only [Bool.and_eq_false_iff]
          left
          simpa using hmin k hk hki
    have hne : ¬ (meta.postBalances.getD i 0 - meta.preBalances.getD i 0 ≤ 0) := by
      omega
    simp only [parseTipTransaction, hmeta, hidx, if_neg hne, hfind]
    exact ⟨_, rfl, rfl⟩
  · intro tx meta target i hmeta hidx hpos hnone
    have hfind : senderIdx meta.preBalances meta.postBalances i
        tx.message.accountKeys.length = none := by
      apply range_find?_eq_none
      intro k hk
      by_cases hki : k = i
      · simp [hki]
      · simp only [Bool.and_eq_false_iff]
        left
        simpa using hnone k hk hki
    have hne : ¬ (meta.postBalances.getD i 0 - meta.preBalances.getD i 0 ≤ 0) := by
      omega
    simp only [parseTipTransaction, hmeta, hidx, if_neg hne, hfind]
    exact ⟨_, rfl, rfl⟩

/-- Witness for C5: the first decreasing account (index 0) is reported as
the sender. -/
theorem C5_sender_first_decrease_witness :
    ∃ info, parseTipTransaction
        ⟨some ⟨[1000000000, 0], [499990000, 500000000]⟩,
         ⟨["sender", "target"], []⟩, 5, some 77⟩ "target" = some info ∧
      info.fromAddr = (["sender", "target"] : List String).getD 0 "unknown" := by
  exact (C5_sender_first_decrease.1
    ⟨some ⟨[1000000000, 0], [499990000, 500000000]⟩,
     ⟨["sender", "target"], []⟩, 5, some 77⟩
    ⟨[1000000000, 0], [499990000, 500000000]⟩ "target" 1 0 rfl (by decide)
    (by decide) (by decide) (by decide) (by decide) (by omega))

/- ------------------------------------------------------------------ -/
/- Claim about the signature verifier                                  -/
/- ------------------------------------------------------------------ -/

/-- C6: `verifySignature` is a total boolean function (it is a Lean
function, hence deterministic and side-effect-free), and on every
malformed encoding — a non-base58 signature or key, or a decoded buffer
whose length is not the scheme-fixed 64 (signature) or 32 (public key)
bytes — it returns false instead of propagating the underlying throw,
for every choice of the abstracted primitives. -/
theorem C6_verify_malformed_false
    (encodeUtf8 : String → List Nat) (bs58decode : String → Option (List Nat))
    (curveVerify : List Nat → List Nat → List Nat → Bool)
    (message signatureBase58 pubkeyBase58 : String)
    (h : bs58decode signatureBase58 = none ∨ bs58decode pubkeyBase58 = none ∨
         (∀ bs, bs58decode signatureBase58 = some bs → bs.length ≠ 64) ∨
         (∀ bs, bs58decode pubkeyBase58 = some bs → bs.length ≠ 32)) :
    verifySignature encodeUtf8 bs58decode curveVerify message signatureBase58
      pubkeyBase58 = false := by
  unfold verifySignature
  cases hsig : bs58decode signatureBase58 with
  | none => rfl
  | some sigBytes =>
    cases hpk : bs58decode pubkeyBase58 with
    | none => rfl
    | some pkBytes =>
      rcases h with h | h | h | h
      · rw [hsig] at h; cases h
      · rw [hpk] at h; cases h
      · have hlen : sigBytes.length ≠ 64 := h sigBytes hsig
        simp [signDetachedVerify, hlen]
      · have hlen : pkBytes.length ≠ 32 := h pkBytes hpk
        by_cases hs : sigBytes.length = 64
        · simp [signDetachedVerify, hs, hlen]
        · simp [signDetachedVerify, hs]

/-- Witness for C6: a decoder that produces a 3-byte buffer makes the
signature length check fail, so verification returns false. -/
theorem C6_verify_malformed_false_witness :
    verifySignature (fun _ => []) (fun _ => some [1, 2, 3]) (fun _ _ _ => true)
      "msg" "sig" "pk" = false :=
  C6_verify_malformed_false (fun _ => []) (fun _ => some [1, 2, 3])
    (fun _ _ _ => true) "msg" "sig" "pk"
    (Or.inr (Or.inr (Or.inl (fun bs hbs => by
      cases hbs
      decide))))

/- ------------------------------------------------------------------ -/
/- Claim about the event emitter                                       -/
/- ------------------------------------------------------------------ -/

lemma runHandlers_eq_map {α ε : Type} (data : α) (l : List (α → Except ε Unit)) :
    runHandlers data l = l.map fun h => h data := by
  induction l with
  | nil => rfl
  | cons h rest ih =>
    simp only [runHandlers, List.map_cons]
    cases h data <;> simp [ih]

/-- C7: `emit` invokes every registered handler, in registration order,
with the same event data: the outcome trace has one entry per handler,
entry `i` is exactly handler `i` applied to the data (so a throwing
handler — an `Except.error` outcome — leaves every later handler's entry
in place), and a handler registered after an existing list is invoked
last with the same data.  The trace type shows no handler error escapes
`emit`. -/
theorem C7_emit_all_handlers {α ε : Type} :
    (∀ (eventHandlers : String → List (α → Except ε Unit)) (event : String)
        (data : α),
      (emitEvent eventHandlers event data).length = (eventHandlers event).length ∧
      (∀ i (hi : i < (eventHandlers event).length),
        (emitEvent eventHandlers event data).getD i (Except.ok ()) =
          (eventHandlers event).get ⟨i, hi⟩ data)) ∧
    (∀ (eventHandlers : String → List (α → Except ε Unit)) (event : String)
        (handler : α → Except ε Unit) (data : α),
      emitEvent (onEvent eventHandlers event handler) event data =
        emitEvent eventHandlers event data ++ [handler data]) := by
  constructor
  · intro eventHandlers event data
    constructor
    · simp [emitEvent, runHandlers_eq_map]
    · intro i hi
      simp only [emitEvent, runHandlers_eq_map]
      rw [List.getD_eq_getElem?_getD, List.getElem?_map,
        List.getElem?_eq_getElem hi]
      simp
  · intro eventHandlers event handler data
    simp [emitEvent, runHandlers_eq_map, onEvent]

/-- Witness for C7: with a first handler that throws and a second that
succeeds, the second handler's entry is still present and equals its
invocation on the data. -/
theorem C7_emit_all_handlers_witness :
    (emitEvent (α := Nat) (ε := String)
        (onEvent (onEvent (fun _ => []) "tip" (fun _ => Except.error "boom"))
          "tip" (fun _ => Except.ok ())) "tip" 7).getD 1 (Except.ok ()) =
      ((onEvent (onEvent (fun _ => ([] : List (Nat → Except String Unit))) "tip"
          (fun _ => Except.error "boom")) "tip" (fun _ => Except.ok ())) "tip").get
        ⟨1, by simp [onEvent]⟩ 7 :=
  (C7_emit_all_handlers.1
    (onEvent (onEvent (fun _ => []) "tip" (fun _ => Except.error "boom"))
      "tip" (fun _ => Except.ok ())) "tip" 7).2 1 (by simp [onEvent])

/- ------------------------------------------------------------------ -/
/- Claims about the broadcaster fan-out and subscribe handling         -/
/- ------------------------------------------------------------------ -/

/-- C9: the fan-out of `broadcastTip` only ever sends to connections
whose subscription set contains the published recipient id: a connection
subscribed to `idA` but not to `idB` is never in the sent list of a
publish for `idB`. -/
theorem C9_fanout_only_subscribed (maxAlerts : Nat) (windowMs : Int)
    (clients : List WsClient) (subscriptions : Nat → Option (List String))
    (alertCounts : String → List Int) (now : Int) (idA idB : String)
    (ws : WsClient) (subsList : List String) (sent : List WsClient)
    (hsub : subscriptions ws.id = some subsList)
    (_hA : idA ∈ subsList) (hB : idB ∉ subsList)
    (hsent : (broadcastTip maxAlerts windowMs clients subscriptions alertCounts
        now idB).1 = some sent) :
    ws ∉ sent := by
  unfold broadcastTip at hsent
  by_cases hok : (shouldBroadcast maxAlerts windowMs alertCounts now idB).1 = true
  · rw [if_pos hok] at hsent
    intro hmem
    rw [← Option.some_inj.mp hsent] at hmem
    have := (List.mem_filter.mp hmem).2
    rw [hsub] at this
    simp only [Bool.and_eq_true, decide_eq_true_eq] at this
    exact hB this.1
  · rw [if_neg hok] at hsent
    cases hsent

/-- Witness for C9: a connection subscribed only to "alice" is not sent a
tip published for "bob". -/
theorem C9_fanout_only_subscribed_witness :
    (⟨1, 1⟩ : WsClient) ∉
      ((broadcastTip 4 10000 [⟨1, 1⟩] (fun _ => some ["alice"]) (fun _ => [])
        0 "bob").1.getD []) :=
  C9_fanout_only_subscribed 4 10000 [⟨1, 1⟩] (fun _ => some ["alice"])
    (fun _ => []) 0 "alice" "bob" ⟨1, 1⟩ ["alice"]
    ((broadcastTip 4 10000 [⟨1, 1⟩] (fun _ => some ["alice"]) (fun _ => [])
        0 "bob").1.getD [])
    rfl (by decide) (by decide) (by decide)

/-- C10: `handleMessage` records any nonempty streamer string from a
subscribe message — it takes no registry input at all, so no validation
against registered ids can occur — and replies `subscribed`; a subscribe
whose streamer field is missing or empty produces no reply and no state
change (and no branch closes the connection). -/
theorem C10_subscribe_no_validation :
    (∀ (subs : Option (List String)) (s : String), s ≠ "" →
        (handleMessage subs ⟨some "subscribe", none, some s⟩).2 =
          [WsReply.subscribed s] ∧
        ∃ l, (handleMessage subs ⟨some "subscribe", none, some s⟩).1 = some l ∧
          s ∈ l) ∧
    (∀ subs : Option (List String),
        handleMessage subs ⟨some "subscribe", none, none⟩ = (subs, []) ∧
        handleMessage subs ⟨some "subscribe", none, some ""⟩ = (subs, [])) := by
  constructor
  · intro subs s hs
    constructor
    · simp [handleMessage, hs]
    · refine ⟨if s ∈ subs.getD [] then subs.getD [] else subs.getD [] ++ [s], ?_, ?_⟩
      · simp [handleMessage, hs]
      · by_cases hmem : s ∈ subs.getD [] <;> simp [hmem]
  · intro subs
    constructor <;> simp [handleMessage]

/-- Witness for C10: subscribing to the never-registered id "ghost" is
recorded and acknowledged. -/
theorem C10_subscribe_no_validation_witness :
    (handleMessage none ⟨some "subscribe", none, some "ghost"⟩).2 =
      [WsReply.subscribed "ghost"] ∧
    ∃ l, (handleMessage none ⟨some "subscribe", none, some "ghost"⟩).1 = some l ∧
      "ghost" ∈ l :=
  C10_subscribe_no_validation.1 none "ghost" (by decide)

/- ------------------------------------------------------------------ -/
/- Claim about memo decode failures                                    -/
/- ------------------------------------------------------------------ -/

lemma extractMemoGo_eq_none {decodeMemo : String → Option String}
    {accountKeys : List String} (ixs : List Instruction)
    (h : ∀ ix ∈ ixs, accountKeys.getD ix.programIdIndex "" = MEMO_PROGRAM_ID →
      decodeMemo (ix.data.getD "") = none) :
    extractMemoGo decodeMemo accountKeys ixs = none := by
  induction ixs with
  | nil => rfl
  | cons ix rest ih =>
    simp only [extractMemoGo]
    have htail : extractMemoGo decodeMemo accountKeys rest = none :=
      ih fun ix' hmem hpid => h ix' (List.mem_cons_of_mem ix hmem) hpid
    by_cases hc : (accountKeys.getD ix.programIdIndex "" == MEMO_PROGRAM_ID &&
        (ix.data.getD "" != "")) = true
    · rw [if_pos hc]
      have hpid : accountKeys.getD ix.programIdIndex "" = MEMO_PROGRAM_ID :=
        beq_iff_eq.mp ((Bool.and_eq_true _ _).mp hc).1
      rw [h ix (List.mem_cons_self ix rest) hpid]
      exact htail
    · rw [if_neg hc]
      exact htail

/-- C8: when every memo-program instruction payload of a transaction
fails to decode, `extractMemo` returns absent instead of an error, and
tip detection for the transaction is not aborted: `processTransaction`
still produces the payment event, with no memo attached. -/
theorem C8_memo_decode_failure (decodeMemo : String → Option String)
    (getTransaction : String → Option SolTransaction)
    (streamerId pubkey signature : String) (tx : SolTransaction)
    (hfetch : getTransaction signature = some tx)
    (hfail : ∀ ix ∈ tx.message.instructions,
        tx.message.accountKeys.getD ix.programIdIndex "" = MEMO_PROGRAM_ID →
        decodeMemo (ix.data.getD "") = none)
    (hparse : (parseTipTransaction tx pubkey).isSome) :
    extractMemo decodeMemo tx = none ∧
    ∃ td, processTransaction decodeMemo getTransaction streamerId pubkey
        signature = some td ∧ td.memo = none := by
  have hmemo : extractMemo decodeMemo tx = none :=
    extractMemoGo_eq_none _ hfail
  refine ⟨hmemo, ?_⟩
  obtain ⟨info, hinfo⟩ := Option.isSome_iff_exists.mp hparse
  have hmeta : ∃ m, tx.meta = some m := by
    cases h : tx.meta with
    | none =>
      rw [parseTipTransaction, h] at hinfo
      cases hinfo
    | some m => exact ⟨m, rfl⟩
  obtain ⟨m, hm⟩ := hmeta
  simp only [processTransaction, hfetch, hm, hinfo, extractMemo] at *
  rw [hmemo]
  exact ⟨_, rfl, rfl⟩

/-- Witness for C8: a transaction with one memo instruction whose payload
never decodes still yields the payment event, memo absent. -/
theorem C8_memo_decode_failure_witness :
    extractMemo (fun _ => none)
      ⟨some ⟨[1000000000, 0], [499990000, 500000000]⟩,
       ⟨["sender", "target", MEMO_PROGRAM_ID], [⟨2, some "payload"⟩]⟩,
       5, some 77⟩ = none ∧
    ∃ td, processTransaction (fun _ => none)
        (fun _ => some ⟨some ⟨[1000000000, 0], [499990000, 500000000]⟩,
          ⟨["sender", "target", MEMO_PROGRAM_ID], [⟨2, some "payload"⟩]⟩,
          5, some 77⟩) "alice" "target" "s1" = some td ∧ td.memo = none :=
  C8_memo_decode_failure (fun _ => none)
    (fun _ => some ⟨some ⟨[1000000000, 0], [499990000, 500000000]⟩,
      ⟨["sender", "target", MEMO_PROGRAM_ID], [⟨2, some "payload"⟩]⟩,
      5, some 77⟩) "alice" "target" "s1"
    ⟨some ⟨[1000000000, 0], [499990000, 500000000]⟩,
     ⟨["sender", "target", MEMO_PROGRAM_ID], [⟨2, some "payload"⟩]⟩,
     5, some 77⟩
    rfl (fun _ _ _ => rfl) (by decide)

/- ------------------------------------------------------------------ -/
/- Claim C1: cursor advancement past failed signatures                 -/
/- ------------------------------------------------------------------ -/

/-- The signature of the last entry of a processing log, with a fallback
cursor for an empty log. -/
def lastCursor (log : List (String × Option TipData)) (c : Option String) :
    Option String :=
  match log with
  | [] => c
  | p :: rest => lastCursor rest (some p.1)

/-- C1 counterexample: one cycle with a single new signature "s1" whose
transaction fetch fails (the RPC call returns nothing) processes "s1"
without emitting any event — and still advances the stored cursor to
"s1", so the failed signature is NOT retried on the next cycle.  This
refutes the claim that the cursor is not advanced to or past a failed
signature: `processTransaction` catches the failure internally and
returns normally, after which `checkStreamerTips` unconditionally calls
`updateLastSeen`. -/
theorem C1_failed_fetch_counterexample :
    ((fun _ => (none : Option SolTransaction)) "s1" = none) ∧
    checkStreamerTips (fun _ => none) (fun _ => none) ["s1"] 20 "alice" "pk"
      none = ([("s1", none)], some "s1") := by
  exact ⟨rfl, rfl⟩

/-- C1 amended: per-signature fetch/parse failures are logged and produce
no event, but the cursor IS advanced to the failed signature all the
same (so it is not retried); the processing loop records every
non-skipped signature, pairs it with exactly the event (if any) that
`processTransaction` emitted for it before the cursor update, and leaves
the final cursor at the last processed signature (the initial cursor
when none was processed). -/
theorem C1_cursor_advances_regardless_of_failure
    (decodeMemo : String → Option String)
    (getTransaction : String → Option SolTransaction)
    (streamerId pubkey : String) (lastSeen : Option String)
    (page : List String) : ∀ cursor : Option String,
    (∀ p ∈ (processPage decodeMemo getTransaction streamerId pubkey lastSeen
        cursor page).1,
      p.2 = processTransaction decodeMemo getTransaction streamerId pubkey p.1) ∧
    (processPage decodeMemo getTransaction streamerId pubkey lastSeen cursor
        page).2 =
      lastCursor (processPage decodeMemo getTransaction streamerId pubkey
        lastSeen cursor page).1 cursor ∧
    (∀ sig ∈ page, lastSeen ≠ some sig →
      sig ∈ (processPage decodeMemo getTransaction streamerId pubkey lastSeen
        cursor page).1.map Prod.fst) := by
  induction page with
  | nil =>
    intro cursor
    refine ⟨by simp [processPage], rfl, by simp⟩
  | cons s rest ih =>
    intro cursor
    by_cases hskip : lastSeen = some s
    · simp only [processPage, if_pos hskip]
      obtain ⟨ih1, ih2, ih3⟩ := ih cursor
      refine ⟨ih1, ih2, ?_⟩
      intro sig hmem hnsk
      rcases List.mem_cons.mp hmem with h | h
      · exact absurd (h ▸ hskip) hnsk
      · exact ih3 sig h hnsk
    · simp only [processPage, if_neg hskip]
      obtain ⟨ih1, ih2, ih3⟩ := ih (some s)
      refine ⟨?_, ?_, ?_⟩
      · intro p hp
        rcases List.mem_cons.mp hp with h | h
        · rw [h]
        · exact ih1 p h
      · simpa [lastCursor] using ih2
      · intro sig hmem hns
        rcases List.mem_cons.mp hmem with h | h
        · simp [h]
        · simp only [List.map_cons, List.mem_cons]
          exact Or.inr (ih3 sig h hns)

/-- Witness for C1's amended claim: with every transaction fetch failing,
the single page signature "s1" is still processed (with no event) and the
final cursor is the last processed signature. -/
theorem C1_cursor_advances_regardless_of_failure_witness :
    "s1" ∈ (processPage (fun _ => none) (fun _ => none) "alice" "pk" none none
        ["s1"]).1.map Prod.fst ∧
    (processPage (fun _ => none) (fun _ => none) "alice" "pk" none none
        ["s1"]).2 =
      lastCursor (processPage (fun _ => none) (fun _ => none) "alice" "pk" none
        none ["s1"]).1 none :=
  ⟨(C1_cursor_advances_regardless_of_failure (fun _ => none) (fun _ => none)
      "alice" "pk" none ["s1"] none).2.2 "s1" (by decide) (by decide),
   (C1_cursor_advances_regardless_of_failure (fun _ => none) (fun _ => none)
      "alice" "pk" none ["s1"] none).2.1⟩

/- ------------------------------------------------------------------ -/
/- Claim C3: per-recipient rate limiting                               -/
/- ------------------------------------------------------------------ -/

/-- A sequence of `publish` calls for the same recipient at the given
times, each going through the rate check of `shouldBroadcast` and
threading the updated table: the source's `broadcastTip` does exactly
this before fanning out, and a `false` outcome means the event is
dropped on the spot (no queue).  Returns the per-call decisions in call
order and the final table. -/
def publishSeq (maxAlertsPerWindow : Nat) (alertWindowMs : Int)
    (streamerId : String) (alertCounts : String → List Int) :
    List Int → List Bool × (String → List Int)
  | [] => ([], alertCounts)
  | now :: rest =>
    let r := shouldBroadcast maxAlertsPerWindow alertWindowMs alertCounts now
      streamerId
    let q := publishSeq maxAlertsPerWindow alertWindowMs streamerId r.2 rest
    (r.1 :: q.1, q.2)

lemma shouldBroadcast_of_all_fresh {maxAlerts : Nat} {windowMs : Int}
    {st : String → List Int} {now : Int} {id : String}
    (hkeep : ∀ a ∈ st id, now - a < windowMs) :
    shouldBroadcast maxAlerts windowMs st now id =
      if maxAlerts ≤ (st id).length then (false, st)
      else (true, fun i => if i = id then st id ++ [now] else st i) := by
  unfold shouldBroadcast
  have hfilter : (st id).filter (fun entry => decide (now - entry < windowMs)) =
      st id := by
    apply List.filter_eq_self.mpr
    intro a ha
    simpa using hkeep a ha
  simp only [hfilter]

lemma publishSeq_count_window (B : Nat) (W : Int) (id : String) (lo hi : Int)
    (hW : hi - lo < W) :
    ∀ (ts : List Int) (st : String → List Int),
    (∀ a ∈ st id, lo ≤ a ∧ a ≤ hi) → (∀ t ∈ ts, lo ≤ t ∧ t ≤ hi) →
    (st id).length ≤ B →
    ((publishSeq B W id st ts).1.count true) =
      min ts.length (B - (st id).length) := by
  intro ts
  induction ts with
  | nil =>
    intro st _ _ _
    simp [publishSeq]
  | cons t rest ih =>
    intro st hst hts hlen
    have ht : lo ≤ t ∧ t ≤ hi := hts t (List.mem_cons_self t rest)
    have hkeep : ∀ a ∈ st id, t - a < W := by
      intro a ha
      have := hst a ha
      omega
    simp only [publishSeq, shouldBroadcast_of_all_fresh hkeep]
    by_cases hcase : B ≤ (st id).length
    · rw [if_pos hcase]
      have hzero : B - (st id).length = 0 := by omega
      have hrec := ih st hst (fun x hx => hts x (List.mem_cons_of_mem t hx)) hlen
      simp only [List.count_cons]
      rw [hrec, hzero]
      simp
    · rw [if_neg hcase]
      set st' : String → List Int := fun i => if i = id then st id ++ [t] else st i
        with hstd
      have hid : st' id = st id ++ [t] := by simp [hstd]
      have hrec := ih st'
        (by
          rw [hid]
          intro a ha
          rcases List.mem_append.mp ha with h | h
          · exact hst a h
          · simp only [List.mem_singleton] at h
            exact h ▸ ht)
        (fun x hx => hts x (List.mem_cons_of_mem t hx))
        (by rw [hid]; simp only [List.length_append, List.length_singleton]; omega)
      rw [hid] at hrec
      simp only [List.length_append, List.length_singleton] at hrec
      simp only [List.count_cons, hrec, List.length_cons, beq_self_eq_true,
        eq_self_iff_true, if_true]
      omega

/-- C3: the rate check delivers a publish exactly when, after pruning the
recorded timestamps older than the window, fewer than the budget remain
(first conjunct, stated on `broadcastTip`: delivery happens iff the
pruned count is under the budget, and a dropped event is not queued —
the table is the only state and the drop leaves no other trace); from a
fresh window, any sequence of publishes whose times all lie within one
window delivers exactly `min n budget` of its `n` calls — so budget+1
calls deliver exactly budget and drop the rest (second conjunct); and
once the window has elapsed since every recorded emission, a new publish
succeeds again (third conjunct). -/
theorem C3_rate_limit_window :
    (∀ (B : Nat) (W : Int) (clients : List WsClient)
        (subscriptions : Nat → Option (List String))
        (st : String → List Int) (now : Int) (id : String),
      ((broadcastTip B W clients subscriptions st now id).1.isSome ↔
        ((st id).filter fun t => decide (now - t < W)).length < B)) ∧
    (∀ (B : Nat) (W : Int) (id : String) (st : String → List Int)
        (ts : List Int) (lo hi : Int),
      st id = [] → (∀ t ∈ ts, lo ≤ t ∧ t ≤ hi) → hi - lo < W →
      ((publishSeq B W id st ts).1.count true) = min ts.length B) ∧
    (∀ (B : Nat) (W : Int) (st : String → List Int) (now : Int) (id : String),
      0 < B → (∀ t ∈ st id, W ≤ now - t) →
      (shouldBroadcast B W st now id).1 = true) := by
  refine ⟨?_, ?_, ?_⟩
  · intro B W clients subscriptions st now id
    unfold broadcastTip shouldBroadcast
    by_cases h : B ≤ ((st id).filter fun t => decide (now - t < W)).length
    · simp [h]
    · simp [h]
      omega
  · intro B W id st ts lo hi hfresh hts hW
    have := publishSeq_count_window B W id lo hi hW ts st
      (by rw [hfresh]; intro a ha; cases ha) hts (by rw [hfresh]; simp)
    rw [hfresh] at this
    simpa using this
  · intro B W st now id hB hold
    unfold shouldBroadcast
    have hfilter : (st id).filter (fun entry => decide (now - entry < W)) =
        [] := by
      rw [List.filter_eq_nil_iff]
      intro a ha
      have := hold a ha
      simp
      omega
    simp only [hfilter]
    simp [Nat.pos_iff_ne_zero.mp hB]

/-- Witness for C3 at the spec's example: budget 2, window 10s, three
publishes within one second deliver exactly two. -/
theorem C3_rate_limit_window_witness :
    ((publishSeq 2 10000 "bob" (fun _ => []) [0, 500, 1000]).1.count true)
      = 2 := by
  have h := C3_rate_limit_window.2.1 2 10000 "bob" (fun _ => [])
    [0, 500, 1000] 0 1000 rfl (by decide) (by decide)
  simpa using h

/- ------------------------------------------------------------------ -/
/- Claim C2: no signature is ever emitted twice                        -/
/- ------------------------------------------------------------------ -/

/-- The part of the chain up to and including the cursor position: the
signatures a cursor value accounts for. -/
def consumed (chain : List String) : Option String → List String
  | none => []
  | some u => chain.takeWhile (· != u) ++ [u]

lemma takeWhile_bne_of_not_mem {u : String} :
    ∀ {l : List String}, u ∉ l → l.takeWhile (· != u) = l := by
  intro l
  induction l with
  | nil => intro _; rfl
  | cons a t ih =>
    intro h
    have hau : ¬ a = u := fun hau => h (List.mem_cons.mpr (Or.inl hau.symm))
    have ha : (a != u) = true := bne_iff_ne.mpr hau
    rw [List.takeWhile_cons, if_pos ha,
      ih fun hm => h (List.mem_cons_of_mem a hm)]

lemma dropWhile_bne_eq_cons {u : String} :
    ∀ {l : List String}, u ∈ l → ∃ rest, l.dropWhile (· != u) = u :: rest := by
  intro l
  induction l with
  | nil => intro h; cases h
  | cons a t ih =>
    intro h
    by_cases hau : a = u
    · exact ⟨t, by rw [List.dropWhile_cons, if_neg (by simp [hau]), hau]⟩
    · have hmem : u ∈ t := by
        rcases List.mem_cons.mp h with h' | h'
        · exact absurd h'.symm hau
        · exact h'
      obtain ⟨rest, hrest⟩ := ih hmem
      exact ⟨rest, by rw [List.dropWhile_cons, if_pos (by simp [hau]), hrest]⟩

lemma chain_eq_consumed_append {u : String} {chain : List String}
    (h : u ∈ chain) :
    chain = consumed chain (some u) ++ sigsAfter chain (some u) := by
  obtain ⟨rest, hrest⟩ := dropWhile_bne_eq_cons h
  have hsplit := List.takeWhile_append_dropWhile (· != u) chain
  simp only [consumed, sigsAfter, hrest, List.drop_succ_cons, List.drop_zero]
  rw [List.append_assoc, List.singleton_append, ← hrest]
  exact hsplit.symm

lemma takeWhile_bne_append {u : String} {ext : List String} :
    ∀ {chain : List String}, u ∈ chain →
    (chain ++ ext).takeWhile (· != u) = chain.takeWhile (· != u) := by
  intro chain
  induction chain with
  | nil => intro h; cases h
  | cons a t ih =>
    intro h
    by_cases hau : a = u
    · have hfa : (a != u) = false := by simp [hau]
      simp [List.takeWhile_cons, hfa]
    · have hb : (a != u) = true := by simp [hau]
      have hmem : u ∈ t := by
        rcases List.mem_cons.mp h with h' | h'
        · exact absurd h'.symm hau
        · exact h'
      simp [List.takeWhile_cons, hb, ih hmem]

lemma consumed_append_stable {u : String} {chain ext : List String}
    (h : u ∈ chain) :
    consumed (chain ++ ext) (some u) = consumed chain (some u) := by
  simp only [consumed, takeWhile_bne_append h]

lemma takeWhile_append_of_all {p : String → Bool} {l₂ : List String} :
    ∀ {l₁ : List String}, (∀ x ∈ l₁, p x = true) →
    (l₁ ++ l₂).takeWhile p = l₁ ++ l₂.takeWhile p := by
  intro l₁
  induction l₁ with
  | nil => intro _; rfl
  | cons a t ih =>
    intro h
    have ha := h a (List.mem_cons_self a t)
    simp [List.takeWhile_cons, ha,
      ih fun x hx => h x (List.mem_cons_of_mem a hx)]

lemma consumed_getLast {chain : List String} (hnd : chain.Nodup) {v : String}
    (hv : chain.getLast? = some v) : consumed chain (some v) = chain := by
  have hne : chain ≠ [] := by
    intro h0
    rw [h0] at hv
    cases hv
  have hvv : chain.getLast hne = v := by
    rw [List.getLast?_eq_getLast chain hne] at hv
    exact Option.some_inj.mp hv
  have hdecomp := List.dropLast_append_getLast hne
  rw [hvv] at hdecomp
  have hnotmem : v ∉ chain.dropLast := by
    intro hmem
    have h2 : (chain.dropLast ++ [v]).Nodup := hdecomp.symm ▸ hnd
    exact (List.nodup_append.mp h2).2.2 hmem (List.mem_singleton.mpr rfl)
  simp only [consumed]
  conv_lhs =>
    rw [← hdecomp, takeWhile_append_of_all fun x hx =>
      bne_iff_ne.mpr fun hxv => hnotmem (by rw [← hxv]; exact hx)]
  have hone : ([v].takeWhile (· != v)) = [] := by simp
  rw [hone, List.append_nil, hdecomp]

lemma processPage_no_skip (decodeMemo : String → Option String)
    (getTransaction : String → Option SolTransaction) (sid pk : String)
    (ls : Option String) :
    ∀ (page : List String) (c : Option String), (∀ s ∈ page, ¬ ls = some s) →
    (processPage decodeMemo getTransaction sid pk ls c page).1 =
      page.map (fun s =>
        (s, processTransaction decodeMemo getTransaction sid pk s)) ∧
    (processPage decodeMemo getTransaction sid pk ls c page).2 =
      (match page.getLast? with
       | some s => some s
       | none => c) := by
  intro page
  induction page with
  | nil => intro c _; exact ⟨rfl, rfl⟩
  | cons s rest ih =>
    intro c h
    have hs : ¬ ls = some s := h s (List.mem_cons_self s rest)
    obtain ⟨ih1, ih2⟩ := ih (some s) fun x hx => h x (List.mem_cons_of_mem s hx)
    simp only [processPage, if_neg hs]
    constructor
    · simp [ih1]
    · rw [ih2]
      cases rest with
      | nil => rfl
      | cons b t =>
        rw [List.getLast?_cons_cons]
        cases hbt : (b :: t).getLast? with
        | none =>
          rw [List.getLast?_eq_getLast _ (List.cons_ne_nil b t)] at hbt
          cases hbt
        | some x => rfl

/-- The invariant maintained by the indexer across poll cycles for one
recipient: the processed signatures are distinct, all of them lie in the
part of the chain the stored cursor accounts for, and the cursor (when
set) points into the chain. -/
def IndexerInv (s : IndexerState) : Prop :=
  (s.log.map Prod.fst).Nodup ∧
  (∀ x ∈ s.log.map Prod.fst, x ∈ consumed s.chain s.lastSeen) ∧
  (∀ u, s.lastSeen = some u → u ∈ s.chain)

lemma stepCycle_inv (decodeMemo : String → Option String)
    (getTransaction : String → Option SolTransaction) (limit : Nat)
    (sid pk : String) (s : IndexerState) (c : CycleInput)
    (hnd : (s.chain ++ c.newTxs).Nodup) (hinv : IndexerInv s) :
    IndexerInv (stepCycle decodeMemo getTransaction limit sid pk s c) ∧
    (stepCycle decodeMemo getTransaction limit sid pk s c).chain =
      s.chain ++ c.newTxs := by
  obtain ⟨hndup, hcons, hmem⟩ := hinv
  have hold_in : ∀ x ∈ s.log.map Prod.fst,
      x ∈ consumed (s.chain ++ c.newTxs) s.lastSeen := by
    intro x hx
    cases hl : s.lastSeen with
    | none =>
      have hx' := hcons x hx
      rw [hl] at hx'
      cases hx'
    | some u =>
      have hx' := hcons x hx
      rw [hl] at hx'
      rw [consumed_append_stable (hmem u hl)]
      exact hx'
  by_cases hok : c.rpcOk = true
  case neg =>
    simp only [stepCycle, if_neg hok]
    exact ⟨⟨hndup, hold_in, fun u hu => List.mem_append_left _ (hmem u hu)⟩,
      trivial⟩
  case pos =>
    have hdecomp : s.chain ++ c.newTxs =
        consumed (s.chain ++ c.newTxs) s.lastSeen ++
          sigsAfter (s.chain ++ c.newTxs) s.lastSeen := by
      cases hl : s.lastSeen with
      | none => simp [consumed, sigsAfter]
      | some u =>
        exact chain_eq_consumed_append (List.mem_append_left _ (hmem u hl))
    set after := sigsAfter (s.chain ++ c.newTxs) s.lastSeen with hafter
    set page := ((after.reverse).take limit).reverse with hpage
    have hpage_sub : ∀ x ∈ page, x ∈ after := by
      intro x hx
      rw [hpage, List.mem_reverse] at hx
      exact List.mem_reverse.mp ((List.take_sublist _ _).subset hx)
    have hafter_nodup : after.Nodup := by
      have hsub : after.Sublist (s.chain ++ c.newTxs) := by
        conv_rhs => rw [hdecomp]
        exact List.sublist_append_right _ _
      exact List.Nodup.sublist hsub hnd
    have hpage_nodup : page.Nodup := by
      rw [hpage, List.nodup_reverse]
      exact List.Nodup.sublist (List.take_sublist _ _)
        (List.nodup_reverse.mpr hafter_nodup)
    have hdisj : ∀ x ∈ consumed (s.chain ++ c.newTxs) s.lastSeen, x ∉ after := by
      intro x hx
      have h2 : (consumed (s.chain ++ c.newTxs) s.lastSeen ++ after).Nodup :=
        hdecomp ▸ hnd
      exact (List.nodup_append.mp h2).2.2 hx
    have hnoskip : ∀ x ∈ page, ¬ s.lastSeen = some x := by
      intro x hx hlx
      have hxc : x ∈ consumed (s.chain ++ c.newTxs) s.lastSeen := by
        rw [hlx]
        simp [consumed]
      exact hdisj x hxc (hpage_sub x hx)
    obtain ⟨hlog, hcur⟩ := processPage_no_skip decodeMemo getTransaction sid pk
      s.lastSeen page s.lastSeen hnoskip
    have hr1 : (checkStreamerTips decodeMemo getTransaction
        (s.chain ++ c.newTxs) limit sid pk s.lastSeen).1 =
        page.map (fun x =>
          (x, processTransaction decodeMemo getTransaction sid pk x)) := by
      simp only [checkStreamerTips, listRecentSignatures, ← hafter, ← hpage]
      exact hlog
    have hr2 : (checkStreamerTips decodeMemo getTransaction
        (s.chain ++ c.newTxs) limit sid pk s.lastSeen).2 =
        (match page.getLast? with
         | some x => some x
         | none => s.lastSeen) := by
      simp only [checkStreamerTips, listRecentSignatures, ← hafter, ← hpage]
      exact hcur
    have hmap : ((s.log ++ (checkStreamerTips decodeMemo getTransaction
        (s.chain ++ c.newTxs) limit sid pk s.lastSeen).1).map Prod.fst) =
        s.log.map Prod.fst ++ page := by
      rw [List.map_append, hr1, List.map_map]
      conv_lhs =>
        rw [show (Prod.fst ∘ fun x =>
          (x, processTransaction decodeMemo getTransaction sid pk x)) = id
          from rfl]
      rw [List.map_id]
    simp only [stepCycle, if_pos hok]
    refine ⟨⟨?_, ?_, ?_⟩, trivial⟩
    · -- distinctness of the processed signatures
      show ((s.log ++ _).map Prod.fst).Nodup
      rw [hmap]
      refine List.Nodup.append hndup hpage_nodup ?_
      rw [List.disjoint_left]
      intro x hx hxp
      exact hdisj x (hold_in x hx) (hpage_sub x hxp)
    · -- everything processed lies within what the new cursor accounts for
      show ∀ x ∈ (s.log ++ _).map Prod.fst, x ∈ consumed (s.chain ++ c.newTxs) _
      rw [hmap, hr2]
      cases hv : page.getLast? with
      | none =>
        have hpnil : page = [] := by
          cases hp : page with
          | nil => rfl
          | cons b t =>
            rw [hp, List.getLast?_eq_getLast _ (List.cons_ne_nil b t)] at hv
            cases hv
        intro x hx
        rw [hpnil, List.append_nil] at hx
        exact hold_in x hx
      | some v =>
        have hpgl : after.getLast? = some v := by
          have h1 : page.getLast? = (after.reverse.take limit).head? := by
            rw [hpage, List.getLast?_reverse]
          rw [hv, List.head?_take] at h1
          by_cases hlim : limit = 0
          · rw [if_pos hlim] at h1
            cases h1
          · rw [if_neg hlim, List.head?_reverse] at h1
            exact h1.symm
        have hcl : (s.chain ++ c.newTxs).getLast? = some v := by
          conv_lhs => rw [hdecomp]
          rw [List.getLast?_append, hpgl]
          rfl
        rw [consumed_getLast hnd hcl]
        intro x hx
        rcases List.mem_append.mp hx with h | h
        · have hxc := hold_in x h
          rw [hdecomp]
          exact List.mem_append_left _ hxc
        · rw [hdecomp]
          exact List.mem_append_right _ (hpage_sub x h)
    · -- the new cursor points into the chain
      show ∀ u, (checkStreamerTips decodeMemo getTransaction
          (s.chain ++ c.newTxs) limit sid pk s.lastSeen).2 = some u →
        u ∈ s.chain ++ c.newTxs
      rw [hr2]
      cases hv : page.getLast? with
      | none =>
        intro u hu
        exact List.mem_append_left _ (hmem u hu)
      | some v =>
        intro u hu
        have huv : v = u := Option.some_inj.mp hu
        have hpgl : after.getLast? = some v := by
          have h1 : page.getLast? = (after.reverse.take limit).head? := by
            rw [hpage, List.getLast?_reverse]
          rw [hv, List.head?_take] at h1
          by_cases hlim : limit = 0
          · rw [if_pos hlim] at h1
            cases h1
          · rw [if_neg hlim, List.head?_reverse] at h1
            exact h1.symm
        have hcl : (s.chain ++ c.newTxs).getLast? = some v := by
          conv_lhs => rw [hdecomp]
          rw [List.getLast?_append, hpgl]
          rfl
        have hne : s.chain ++ c.newTxs ≠ [] := by
          intro h0
          rw [h0] at hcl
          cases hcl
        rw [List.getLast?_eq_getLast _ hne] at hcl
        rw [← huv, ← Option.some_inj.mp hcl]
        exact List.getLast_mem hne

lemma runIndexer_inv (decodeMemo : String → Option String)
    (getTransaction : String → Option SolTransaction) (limit : Nat)
    (sid pk : String) :
    ∀ (cycles : List CycleInput) (s : IndexerState),
    IndexerInv s → (s.chain ++ (cycles.map CycleInput.newTxs).flatten).Nodup →
    IndexerInv (cycles.foldl
      (stepCycle decodeMemo getTransaction limit sid pk) s) := by
  intro cycles
  induction cycles with
  | nil =>
    intro s hinv _
    simpa using hinv
  | cons c rest ih =>
    intro s hinv hnd
    rw [List.foldl_cons]
    have hnd1 : (s.chain ++ c.newTxs).Nodup := by
      have hsub : (s.chain ++ c.newTxs).Sublist
          (s.chain ++ (c.newTxs ++ (rest.map CycleInput.newTxs).flatten)) := by
        rw [← List.append_assoc]
        exact List.sublist_append_left _ _
      apply List.Nodup.sublist hsub
      simpa using hnd
    obtain ⟨hinv', hchain'⟩ :=
      stepCycle_inv decodeMemo getTransaction limit sid pk s c hnd1 hinv
    apply ih _ hinv'
    rw [hchain', List.append_assoc]
    simpa using hnd

/-- C2: across any number of poll cycles — with the ledger growing
arbitrarily between cycles, signature fetches allowed to fail, and
per-transaction fetches allowed to fail — no transaction signature is
ever emitted as a tip event twice for a given recipient, given only that
ledger signatures are globally distinct.  The ledger page is the honest
`listRecentSignatures` of the spec's RPC interface (bounded below by the
stored lastSeen and above by the page limit), and the in-loop skip is
equality with lastSeen, exactly as in `checkStreamerTips`. -/
theorem C2_no_signature_emitted_twice (decodeMemo : String → Option String)
    (getTransaction : String → Option SolTransaction) (limit : Nat)
    (sid pk : String) (cycles : List CycleInput)
    (hnd : ((cycles.map CycleInput.newTxs).flatten).Nodup) :
    (emittedSigs
      (runIndexer decodeMemo getTransaction limit sid pk cycles)).Nodup := by
  have hinv := runIndexer_inv decodeMemo getTransaction limit sid pk cycles
    initialIndexerState
    ⟨by simp [initialIndexerState], by simp [initialIndexerState],
     by simp [initialIndexerState]⟩
    (by simpa [initialIndexerState] using hnd)
  have hsub : (emittedSigs
      (runIndexer decodeMemo getTransaction limit sid pk cycles)).Sublist
      (((runIndexer decodeMemo getTransaction limit sid pk cycles).log).map
        Prod.fst) :=
    List.Sublist.map Prod.fst (List.filter_sublist _)
  exact List.Nodup.sublist hsub hinv.1

/-- Witness for C2: two cycles over a growing ledger with every
transaction parsing as a tip (so events are actually emitted) produce
pairwise-distinct emitted signatures. -/
theorem C2_no_signature_emitted_twice_witness :
    ((([⟨["s1", "s2"], true⟩, ⟨["s3"], true⟩] : List CycleInput).map
        CycleInput.newTxs).flatten).Nodup ∧
    (emittedSigs (runIndexer (fun _ => none)
        (fun _ => some ⟨some ⟨[1000000000, 0], [499990000, 500000000]⟩,
          ⟨["sender", "target"], []⟩, 5, some 77⟩) 20 "alice" "target"
        [⟨["s1", "s2"], true⟩, ⟨["s3"], true⟩])).Nodup :=
  ⟨by decide,
   C2_no_signature_emitted_twice (fun _ => none)
     (fun _ => some ⟨some ⟨[1000000000, 0], [499990000, 500000000]⟩,
       ⟨["sender", "target"], []⟩, 5, some 77⟩) 20 "alice" "target"
     [⟨["s1", "s2"], true⟩, ⟨["s3"], true⟩] (by decide)⟩

end SolanaTip
